import Mathlib

/-!
Shallow embedding of objection-find (Vincit/objection-find).

The embedding follows the modern class implementations:
  - FindQueryBuilder (the ES6 class with SPECIAL_PARAMETERS including
    join, groupBy and count),
  - QueryParameter (the ES6 class),
  - PropertyRef (the ES6 class using relation.isOneToOne()),
  - the filter module (in, eq, neq, lt, lte, gt, gte, like, likeLower,
    isNull, notNull).

JavaScript strings are modelled as lists of characters, so that the
string operations the source uses (split, replace of whitespace,
indexOf, toLowerCase, concatenation) are directly executable and
amenable to induction.  The external knex/objection query builder is
modelled as a trace of abstract query operations; building a query
appends operations to the trace.  Thrown errors (utils.throwError and
JavaScript TypeErrors) are modelled with the Except monad.
-/

namespace ObjectionFind

/-- JavaScript strings, modelled as lists of characters. -/
abbrev Str := List Char

/-- JavaScript String.prototype.split with a single-character separator,
as used by the source for '.', ':', '|' and ','.  Always returns a
non-empty list of (possibly empty) fragments. -/
def jsSplit (c : Char) : Str → List Str
  | [] => [[]]
  | x :: xs =>
    match jsSplit c xs with
    | [] => [[]]
    | h :: t => if x = c then [] :: h :: t else (x :: h) :: t

/-- JavaScript str.replace of all whitespace with the empty string
(the regular expression with the s character class, global). -/
def stripWs (s : Str) : Str := s.filter (fun c => ¬ c.isWhitespace)

/-- JavaScript str.indexOf(pat) different from -1: the pattern occurs
as a contiguous substring. -/
def containsSub (pat : Str) : Str → Bool
  | [] => List.isPrefixOf pat []
  | c :: rest => List.isPrefixOf pat (c :: rest) || containsSub pat rest

/-- lodash upperFirst: capitalize the first character, leave the rest. -/
def upperFirst : Str → Str
  | [] => []
  | c :: rest => c.toUpper :: rest

/-- lodash capitalize: first character upper-cased, the rest lower-cased. -/
def capitalize : Str → Str
  | [] => []
  | c :: rest => c.toUpper :: rest.map Char.toLower

/-- JavaScript String.prototype.toLowerCase. -/
def jsToLower (s : Str) : Str := s.map Char.toLower

/-- Decimal digit run parse helper for jsParseInt. -/
def decDigits (s : Str) : Option Nat :=
  let ds := s.takeWhile (fun c => c.isDigit)
  if ds.isEmpty then none
  else some (ds.foldl (fun a c => a * 10 + (c.toNat - 48)) 0)

/-- Hexadecimal digit run parse helper for jsParseInt. -/
def hexDigits (s : Str) : Option Nat :=
  let ds := s.takeWhile (fun c => c.isDigit || ('a' ≤ c ∧ c ≤ 'f') || ('A' ≤ c ∧ c ≤ 'F'))
  if ds.isEmpty then none
  else some (ds.foldl (fun a c =>
    a * 16 + (if c.isDigit then c.toNat - 48
              else if 'a' ≤ c ∧ c ≤ 'f' then c.toNat - 87
              else c.toNat - 55)) 0)

/-- Unsigned part of JavaScript parseInt with automatic radix:
an 0x or 0X prefix selects hexadecimal, otherwise decimal. -/
def jsParseUnsigned : Str → Option Nat
  | '0' :: 'x' :: r => hexDigits r
  | '0' :: 'X' :: r => hexDigits r
  | s => decDigits s

/-- lodash parseInt (JavaScript parseInt with automatic radix): leading
whitespace is skipped, an optional sign is read, then the longest
digit prefix; none models NaN. -/
def jsParseInt (s : Str) : Option Int :=
  let t := s.dropWhile (fun c => c.isWhitespace)
  match t with
  | '-' :: r => (jsParseUnsigned r).map (fun n => -(n : Int))
  | '+' :: r => (jsParseUnsigned r).map (fun n => (n : Int))
  | _ => (jsParseUnsigned t).map (fun n => (n : Int))

/-- Lookup in a JavaScript-object-like association list. -/
def assocLookup {α : Type} (m : List (Str × α)) (k : Str) : Option α :=
  match m.find? (fun kv => kv.1 = k) with
  | some kv => some kv.2
  | none => none

/-- JavaScript object assignment: overwrite the value of an existing key
in place, or append a new key at the end (insertion order). -/
def assocUpsert {α : Type} (m : List (Str × α)) (k : Str) (v : α) : List (Str × α) :=
  if (m.find? (fun kv => kv.1 = k)).isSome then
    m.map (fun kv => if kv.1 = k then (k, v) else kv)
  else m ++ [(k, v)]

/-- lodash invert: build the inverse object, assigning result[v] := k
for each entry in order (later entries overwrite earlier ones). -/
def invertAssoc (m : List (Str × Str)) : List (Str × Str) :=
  m.foldl (fun acc kv => assocUpsert acc kv.2 kv.1) []

/-- The key set of a JavaScript object built by assigning each list
element as a key in order: first occurrences, in insertion order. -/
def dedupKeys (l : List Str) : List Str :=
  l.foldl (fun acc k => if k ∈ acc then acc else acc ++ [k]) []

/-- Iteration with exception propagation: models a JavaScript loop whose
body may throw (lodash each / reduce over a throwing callback). -/
def exMapM {ε α β : Type} (f : α → Except ε β) : List α → Except ε (List β)
  | [] => .ok []
  | x :: xs =>
    match f x with
    | .error e => .error e
    | .ok y => (exMapM f xs).map (fun ys => y :: ys)

/-- Errors thrown through utils.throwError (each constructor is one
distinct call site with its message data), plus typeErr for the
JavaScript TypeError raised when a null filter is invoked or a missing
array element is dereferenced. -/
inductive Err where
  | unknownRelation (name : Str)
  | tooDeep
  | unknownProperty (refStr : Str)
  | invalidParameter (key value : Str)
  | invalidFilter (key value : Str)
  | notAllowed (refStr : Str)
  | orderByToMany
  | invalidRange (rangeStart rangeEnd : Option Int)
  | typeErr
deriving DecidableEq, Repr

/-- True exactly for the permission error thrown by the whitelist check
in FindQueryBuilder.prototype parseQueryParameters. -/
def Err.isNotAllowed : Err → Bool
  | .notAllowed _ => true
  | _ => false

/-- The slice of an objection.js model class the engine reads:
the table name, the class name (used as a subquery alias), and the
property-name-to-column-name mapping (propertyNameToColumnName;
a missing entry models an undefined result). -/
structure ModelClass where
  tableName : Str
  className : Str
  columns : List (Str × Str)
deriving DecidableEq, Repr

/-- Model.propertyNameToColumnName as the engine consumes it. -/
def ModelClass.propertyNameToColumnName (m : ModelClass) (p : Str) : Option Str :=
  assocLookup m.columns p

/-- The slice of an objection.js Relation the engine reads: its name,
its cardinality test isOneToOne(), the owner model's table name and the
related model class.  Relations of related models are never consumed
because property references support only one relation hop. -/
structure Relation where
  name : Str
  oneToOne : Bool
  ownerTableName : Str
  relatedModel : ModelClass
deriving DecidableEq, Repr

/-- The arguments the built-in filters pass to a knex where method. -/
inductive FilterArgs where
  | whereArgs (column op : Str) (value : Option Str)
  | whereInArgs (column : Str) (values : List Str)
  | whereRawArgs (sql : Str) (bindings : List Str)
deriving DecidableEq, Repr

/-- The object a filter function returns: a knex where-method name and
its arguments. -/
structure FilterResult where
  method : Str
  args : FilterArgs
deriving DecidableEq, Repr

/-- One abstract operation applied to the external query builder.
whereExists records the relation the correlated subquery is scoped to,
the alias given to it, and the single where call applied inside it
(the subquery also receives a select 1, which carries no information). -/
inductive QueryOp where
  | call (method : Str) (args : FilterArgs)
  | whereExists (relationName aliasName subMethod : Str) (subArgs : FilterArgs)
  | whereGroup (ops : List QueryOp)
  | select (columns : List Str)
  | orderBy (column dir : Str)
  | groupBy (columns : List Str)
  | range (rangeStart rangeEnd : Int)
  | count (value : Str)
  | allowGraph (expr : Str)
  | withGraphFetched (expr : Str)
  | withGraphJoined (expr : Str)
  | leftJoin (relationName aliasName : Str)
deriving Repr

/-- A resolved property reference (the PropertyRef class): the original
reference string, the terminal model class, the relation hop when the
reference has one, and the resolved property and column names. -/
structure PropertyRef where
  str : Str
  modelClass : ModelClass
  relation : Option Relation
  propertyName : Str
  columnName : Str
deriving DecidableEq, Repr

/-- A filter function: takes the property reference, the raw value and
the terminal model class, and returns the where method with arguments. -/
abbrev FilterFn := PropertyRef → Str → ModelClass → FilterResult

/-- PropertyRef.prototype.fullColumnName: a reference through a
one-to-one relation is addressed through the join alias built from the
owner table name, otherwise through the terminal model's table name. -/
def PropertyRef.fullColumnName (ref : PropertyRef) : Str :=
  match ref.relation with
  | some rel =>
    if rel.oneToOne then
      rel.ownerTableName ++ "_rel_".toList ++ rel.name ++ ".".toList ++ ref.columnName
    else
      ref.modelClass.tableName ++ ".".toList ++ ref.columnName
  | none => ref.modelClass.tableName ++ ".".toList ++ ref.columnName

namespace Filters

/-- The shared basicWhere helper of the filter module. -/
def basicWhere (ref : PropertyRef) (op : Str) (value : Option Str) : FilterResult :=
  { method := "where".toList, args := .whereArgs ref.fullColumnName op value }

def eq : FilterFn := fun ref value _ => basicWhere ref "=".toList (some value)

def neq : FilterFn := fun ref value _ => basicWhere ref "<>".toList (some value)

def lt : FilterFn := fun ref value _ => basicWhere ref "<".toList (some value)

def lte : FilterFn := fun ref value _ => basicWhere ref "<=".toList (some value)

def gt : FilterFn := fun ref value _ => basicWhere ref ">".toList (some value)

def gte : FilterFn := fun ref value _ => basicWhere ref ">=".toList (some value)

def like : FilterFn := fun ref value _ => basicWhere ref "like".toList (some value)

/-- The filter registered under the name in (function inSet). -/
def inSet : FilterFn := fun ref value _ =>
  { method := "whereIn".toList, args := .whereInArgs ref.fullColumnName (jsSplit ',' value) }

def likeLower : FilterFn := fun ref value _ =>
  { method := "whereRaw".toList
    args := .whereRawArgs "lower(??) like ?".toList [ref.fullColumnName, jsToLower value] }

def isNull : FilterFn := fun ref _ _ => basicWhere ref "is".toList none

def notNull : FilterFn := fun ref _ _ => basicWhere ref "is not".toList none

end Filters

/-- The filter module's export object, in its insertion order. -/
def defaultFilters : List (Str × FilterFn) :=
  [ ("in".toList, Filters.inSet)
  , ("eq".toList, Filters.eq)
  , ("neq".toList, Filters.neq)
  , ("lt".toList, Filters.lt)
  , ("lte".toList, Filters.lte)
  , ("gt".toList, Filters.gt)
  , ("gte".toList, Filters.gte)
  , ("like".toList, Filters.like)
  , ("likeLower".toList, Filters.likeLower)
  , ("isNull".toList, Filters.isNull)
  , ("notNull".toList, Filters.notNull) ]

/-- The frozen SPECIAL_PARAMETERS object mapping logical names to their
default external parameter names, in its insertion order. -/
def defaultSpecialParameters : List (Str × Str) :=
  [ ("eager".toList, "eager".toList)
  , ("join".toList, "join".toList)
  , ("rangeEnd".toList, "rangeEnd".toList)
  , ("rangeStart".toList, "rangeStart".toList)
  , ("orderBy".toList, "orderBy".toList)
  , ("orderByAsc".toList, "orderByAsc".toList)
  , ("orderByDesc".toList, "orderByDesc".toList)
  , ("groupBy".toList, "groupBy".toList)
  , ("count".toList, "count".toList) ]

/-- The FindQueryBuilder's state.  The relations list models the root
model class's relation map (what builder modelClass getRelation reads);
it sits here because related models expose no relations of their own to
the engine (only one relation hop is supported). -/
structure FindQueryBuilder where
  _modelClass : ModelClass
  _relations : List Relation
  _allowAll : Bool
  _allow : List (Str × PropertyRef)
  _allowEager : Option Str
  _filters : List (Str × FilterFn)
  _specialParameterMap : List (Str × Str)
  _inverseSpecialParameterMap : List (Str × Str)

/-- modelClass.getRelation(name): the named relation of the root model,
or a thrown error modelled as none. -/
def FindQueryBuilder.getRelation (b : FindQueryBuilder) (name : Str) : Option Relation :=
  b._relations.find? (fun rel => rel.name = name)

/-- PropertyRef.prototype parse (the class version): split the
reference string on dots; one segment is a property of the root model;
two segments are a relation of the root model followed by a property of
the related model; anything else is the depth error.  The resolved
column must be truthy or the reference is an unknown property.
parseFinish is the shared tail of the parse: column resolution and the
truthiness check on the resolved column name. -/
def PropertyRef.parseFinish (str : Str) (relation : Option Relation)
    (modelClass : ModelClass) (propertyName : Str) : Except Err PropertyRef :=
  match modelClass.propertyNameToColumnName propertyName with
  | none => .error (.unknownProperty str)
  | some columnName =>
    if columnName.isEmpty then .error (.unknownProperty str)
    else .ok { str, modelClass, relation, propertyName, columnName }

def PropertyRef.parse (str : Str) (b : FindQueryBuilder) : Except Err PropertyRef :=
  match jsSplit '.' str with
  | [p] => PropertyRef.parseFinish str none b._modelClass p
  | [r, p] =>
    match b.getRelation r with
    | none => .error (.unknownRelation r)
    | some rel => PropertyRef.parseFinish str (some rel) rel.relatedModel p
  | _ => .error .tooDeep

/-- FindQueryBuilder.prototype parsePropertyRef, including the
propertyRefCache: the cache only memoizes the pure parse, so it is
modelled by the parse itself. -/
def FindQueryBuilder.parsePropertyRef (b : FindQueryBuilder) (ref : Str) :
    Except Err PropertyRef :=
  PropertyRef.parse ref b

/-- FindQueryBuilder.prototype parsePropertyRefs: builds an object
keyed by the reference strings (duplicates collapse onto the first
occurrence), parsing each distinct reference in order. -/
def FindQueryBuilder.parsePropertyRefsAssoc (b : FindQueryBuilder) (refs : List Str) :
    Except Err (List (Str × PropertyRef)) :=
  exMapM (fun r => (b.parsePropertyRef r).map (fun pr => (r, pr))) (dedupKeys refs)

/-- The value list of parsePropertyRefs, as consumed by lodash each
over the resulting object. -/
def FindQueryBuilder.parsePropertyRefList (b : FindQueryBuilder) (refs : List Str) :
    Except Err (List PropertyRef) :=
  (b.parsePropertyRefsAssoc refs).map (fun l => l.map Prod.snd)

/-- A parsed query parameter (the QueryParameter class): the raw key
and value, the logical special-parameter name when the key is a
directive, the property references, and the filter function when the
parameter is a filter. -/
structure QueryParameter where
  key : Str
  value : Str
  specialParameter : Option Str
  propertyRefs : List PropertyRef
  filter : Option FilterFn

/-- QueryParameter.prototype parseFilter after the filter function has
been determined: a missing filter is the invalid-filter error, then the
pre-colon part is split on the pipe and resolved. -/
def QueryParameter.mkFilterParam (value key : Str) (b : FindQueryBuilder)
    (fopt : Option FilterFn) (preColon : Str) : Except Err QueryParameter :=
  match fopt with
  | none => .error (.invalidFilter key value)
  | some f =>
    (b.parsePropertyRefList (jsSplit '|' preColon)).map (fun refs =>
      { key, value, specialParameter := none, propertyRefs := refs, filter := some f })

/-- QueryParameter.prototype parseFilter: strip all whitespace from the
key, split on the colon; no colon defaults the filter to eq, one colon
looks the filter up by name, more is the invalid-parameter error. -/
def QueryParameter.parseFilterParam (value key : Str) (b : FindQueryBuilder) :
    Except Err QueryParameter :=
  match jsSplit ':' (stripWs key) with
  | [p0] => QueryParameter.mkFilterParam value key b (some Filters.eq) p0
  | [p0, fname] => QueryParameter.mkFilterParam value key b (assocLookup b._filters fname) p0
  | _ => .error (.invalidParameter key value)

/-- QueryParameter.prototype parseSpecialParameter: record the logical
name; ordering directives additionally resolve their value, split on
the pipe, into property references. -/
def QueryParameter.parseSpecialParam (value key : Str) (b : FindQueryBuilder)
    (s : Str) : Except Err QueryParameter :=
  if containsSub "orderBy".toList s then
    (b.parsePropertyRefList (jsSplit '|' value)).map (fun refs =>
      { key, value, specialParameter := some s, propertyRefs := refs, filter := none })
  else
    .ok { key, value, specialParameter := some s, propertyRefs := [], filter := none }

/-- QueryParameter.prototype parse: the raw key is looked up verbatim
in the inverse special-parameter map; a truthy hit (a non-empty logical
name) makes the parameter a directive, anything else a filter. -/
def QueryParameter.parse (value key : Str) (b : FindQueryBuilder) :
    Except Err QueryParameter :=
  match assocLookup b._inverseSpecialParameterMap key with
  | some s =>
    if s.isEmpty then QueryParameter.parseFilterParam value key b
    else QueryParameter.parseSpecialParam value key b s
  | none => QueryParameter.parseFilterParam value key b

/-- PropertyRef.prototype buildFilter: obtain the where call from the
filter function (a null filter would raise a TypeError), prefix the
method with the boolean operator when given; a reference through a
relation that is not one-to-one applies the call inside a correlated
subquery scoped to that relation (aliased with the related model class
name) and adds a single whereExists to the outer builder; otherwise the
call is applied to the outer builder directly. -/
def PropertyRef.buildFilter (ref : PropertyRef) (param : QueryParameter)
    (boolOp : Option Str) : Except Err (List QueryOp) :=
  match param.filter with
  | none => .error .typeErr
  | some f =>
    let fr := f ref param.value ref.modelClass
    let whereMethod :=
      match boolOp with
      | some bop => bop ++ upperFirst fr.method
      | none => fr.method
    match ref.relation with
    | some rel =>
      if rel.oneToOne then .ok [.call whereMethod fr.args]
      else .ok [.whereExists rel.name rel.relatedModel.className whereMethod fr.args]
    | none => .ok [.call whereMethod fr.args]

/-- FindQueryBuilder.prototype.allowAll.  The JavaScript method
declares no parameters, so any argument passed by a caller is ignored:
the flag is set back to true and the allow container reset
unconditionally. -/
def FindQueryBuilder.allowAll (b : FindQueryBuilder) (_ignored : Bool) :
    FindQueryBuilder :=
  { b with _allowAll := true, _allow := [] }

/-- FindQueryBuilder.prototype.allow: clear the allow-all flag and
merge the parsed references into the allow container.  (The JavaScript
method mutates the flag before parsing; on a parse error the Except
result models the thrown error.) -/
def FindQueryBuilder.allow (b : FindQueryBuilder) (refs : List Str) :
    Except Err FindQueryBuilder :=
  (b.parsePropertyRefsAssoc refs).map (fun parsed =>
    { b with
        _allowAll := false
        _allow := parsed.foldl (fun acc kv => assocUpsert acc kv.1 kv.2) b._allow })

/-- FindQueryBuilder.prototype.allowEager used as a setter. -/
def FindQueryBuilder.allowEager (b : FindQueryBuilder) (exp : Str) : FindQueryBuilder :=
  { b with _allowEager := some exp }

/-- FindQueryBuilder.prototype.registerFilter. -/
def FindQueryBuilder.registerFilter (b : FindQueryBuilder) (filterName : Str)
    (filter : FilterFn) : FindQueryBuilder :=
  { b with _filters := assocUpsert b._filters filterName filter }

/-- FindQueryBuilder.prototype.specialParameter: record the external
name under the logical name and rebuild the inverse map. -/
def FindQueryBuilder.specialParameter (b : FindQueryBuilder) (name parameterName : Str) :
    FindQueryBuilder :=
  let m := assocUpsert b._specialParameterMap name parameterName
  { b with _specialParameterMap := m, _inverseSpecialParameterMap := invertAssoc m }

/-- The FindQueryBuilder constructor: all references allowed, the
default filters registered in order, the default special-parameter
names given in order. -/
def mkFindQueryBuilder (m : ModelClass) (rels : List Relation) : FindQueryBuilder :=
  let base : FindQueryBuilder :=
    { _modelClass := m
      _relations := rels
      _allowAll := true
      _allow := []
      _allowEager := none
      _filters := []
      _specialParameterMap := []
      _inverseSpecialParameterMap := [] }
  let withFilters := defaultFilters.foldl (fun b nf => b.registerFilter nf.1 nf.2) base
  defaultSpecialParameters.foldl (fun b nn => b.specialParameter nn.1 nn.2) withFilters

/-- A raw query parameter value: a single string or an array of
strings (an array is equivalent to repeating the key per value). -/
inductive ParamValue where
  | str (s : Str)
  | arr (vs : List Str)

/-- The parameter-flattening loop at the top of
FindQueryBuilder.prototype parseQueryParameters. -/
def flattenParams : List (Str × ParamValue) → List (Str × Str)
  | [] => []
  | (k, .str v) :: rest => (k, v) :: flattenParams rest
  | (k, .arr vs) :: rest => vs.map (fun v => (k, v)) ++ flattenParams rest

/-- The parsing half of parseQueryParameters, before the whitelist
check: each flattened key-value pair becomes a QueryParameter. -/
def FindQueryBuilder.parseParamsNoCheck (b : FindQueryBuilder)
    (params : List (Str × ParamValue)) : Except Err (List QueryParameter) :=
  exMapM (fun kv => QueryParameter.parse kv.2 kv.1 b) (flattenParams params)

/-- The whitelist loop of parseQueryParameters: the first property
reference, in parameter order then reference order, whose string is not
a key of the allow container. -/
def firstDisallowedRef (allow : List (Str × PropertyRef)) : List PropertyRef → Option Str
  | [] => none
  | r :: rs =>
    if (assocLookup allow r.str).isSome then firstDisallowedRef allow rs
    else some r.str

/-- The outer whitelist loop over all parsed parameters. -/
def firstDisallowed (allow : List (Str × PropertyRef)) :
    List QueryParameter → Option Str
  | [] => none
  | p :: ps =>
    match firstDisallowedRef allow p.propertyRefs with
    | some s => some s
    | none => firstDisallowed allow ps

/-- FindQueryBuilder.prototype parseQueryParameters: parse every
parameter, then, unless all references are allowed, fail on the first
property reference outside the allow container. -/
def FindQueryBuilder.parseQueryParameters (b : FindQueryBuilder)
    (params : List (Str × ParamValue)) : Except Err (List QueryParameter) :=
  match b.parseParamsNoCheck params with
  | .error e => .error e
  | .ok parsed =>
    if b._allowAll then .ok parsed
    else
      match firstDisallowed b._allow parsed with
      | some s => .error (.notAllowed s)
      | none => .ok parsed

/-- FindQueryBuilder.prototype buildCount: the first parameter whose
raw key is the string count (not the logical directive kind) selects a
count expression. -/
def FindQueryBuilder.buildCount (_b : FindQueryBuilder)
    (params : List QueryParameter) : List QueryOp :=
  match params.find? (fun p => p.key = "count".toList) with
  | some p => [.count p.value]
  | none => []

/-- The relation collection loop of buildJoins: every one-to-one
relation reached by any parameter's property references, in order,
with repetitions. -/
def relationsToJoin (params : List QueryParameter) : List Relation :=
  params.flatMap (fun p =>
    p.propertyRefs.filterMap (fun ref =>
      match ref.relation with
      | some rel => if rel.oneToOne then some rel else none
      | none => none))

/-- lodash uniq keyed by the relation name: first occurrences, in
order.  (objection returns one shared Relation instance per name, so
instance identity and name identity coincide.) -/
def uniqByName (rels : List Relation) : List Relation :=
  rels.foldl (fun acc rel =>
    if acc.any (fun r => r.name = rel.name) then acc else acc ++ [rel]) []

/-- FindQueryBuilder.prototype buildJoins: one left join per distinct
one-to-one relation reached, under the alias tableName_rel_name, and an
explicit select of the root table's columns when any relation was
collected. -/
def FindQueryBuilder.buildJoins (b : FindQueryBuilder)
    (params : List QueryParameter) : List QueryOp :=
  let rels := relationsToJoin params
  (uniqByName rels).map (fun rel =>
      QueryOp.leftJoin rel.name (b._modelClass.tableName ++ "_rel_".toList ++ rel.name))
    ++ (if rels.isEmpty then [] else [.select [b._modelClass.tableName ++ ".*".toList]])

/-- FindQueryBuilder.prototype buildFilter: one property reference is
applied directly; several are wrapped in a single where group, each
branch built with the or operator. -/
def FindQueryBuilder.buildFilter (_b : FindQueryBuilder) (param : QueryParameter) :
    Except Err (List QueryOp) :=
  match param.propertyRefs with
  | [ref] => ref.buildFilter param none
  | refs =>
    (exMapM (fun ref => ref.buildFilter param (some "or".toList)) refs).map
      (fun opss => [.whereGroup opss.flatten])

/-- FindQueryBuilder.prototype buildFilters: every parameter with a
filter function, in order. -/
def FindQueryBuilder.buildFilters (b : FindQueryBuilder)
    (params : List QueryParameter) : Except Err (List QueryOp) :=
  (exMapM (fun p => b.buildFilter p) (params.filter (fun p => p.filter.isSome))).map
    List.flatten

/-- FindQueryBuilder.prototype buildGroupBy: the first parameter whose
raw key is the string groupBy selects and groups by the comma-separated
value. -/
def FindQueryBuilder.buildGroupBy (_b : FindQueryBuilder)
    (params : List QueryParameter) : List QueryOp :=
  match params.find? (fun p => p.key = "groupBy".toList) with
  | some p => [.select (jsSplit ',' p.value), .groupBy (jsSplit ',' p.value)]
  | none => []

/-- The body of the buildOrderBy loop for one parameter: ordering
directives (logical name containing orderBy) order by the reference's
own column when it has no relation, through a select alias when the
relation is one-to-one, and throw otherwise. -/
def FindQueryBuilder.buildOrderByOne (_b : FindQueryBuilder) (param : QueryParameter) :
    Except Err (List QueryOp) :=
  match param.specialParameter with
  | some orderType =>
    if containsSub "orderBy".toList orderType then
      let dir := if orderType = "orderByDesc".toList then "desc".toList else "asc".toList
      match param.propertyRefs with
      | [] => .error .typeErr
      | ref :: _ =>
        match ref.relation with
        | some rel =>
          if rel.oneToOne then
            let columnNameAlias := rel.name ++ capitalize ref.propertyName
            .ok [ .select [ref.fullColumnName ++ " as ".toList ++ columnNameAlias]
                , .orderBy columnNameAlias dir ]
          else .error .orderByToMany
        | none => .ok [.orderBy ref.columnName dir]
    else .ok []
  | none => .ok []

/-- FindQueryBuilder.prototype buildOrderBy over all parameters. -/
def FindQueryBuilder.buildOrderBy (b : FindQueryBuilder)
    (params : List QueryParameter) : Except Err (List QueryOp) :=
  (exMapM (fun p => b.buildOrderByOne p) params).map List.flatten

/-- FindQueryBuilder.prototype buildRange: only when both range
directives are present are the values parsed; a NaN on either side is
the invalid-range error, otherwise the range is applied. -/
def FindQueryBuilder.buildRange (_b : FindQueryBuilder)
    (params : List QueryParameter) : Except Err (List QueryOp) :=
  match params.find? (fun p => p.specialParameter = some "rangeStart".toList),
        params.find? (fun p => p.specialParameter = some "rangeEnd".toList) with
  | some ps, some pe =>
    match jsParseInt ps.value, jsParseInt pe.value with
    | some s, some e => .ok [.range s e]
    | _, _ => .error (.invalidRange (jsParseInt ps.value) (jsParseInt pe.value))
  | _, _ => .ok []

/-- FindQueryBuilder.prototype buildEager: a truthy allowed eager
expression is installed, then the graph fetch expression is handed on. -/
def FindQueryBuilder.buildEager (b : FindQueryBuilder)
    (params : List QueryParameter) : List QueryOp :=
  match params.find? (fun p => p.specialParameter = some "eager".toList) with
  | some p =>
    (match b._allowEager with
     | some ae => if ae.isEmpty then [] else [.allowGraph ae]
     | none => []) ++ [.withGraphFetched p.value]
  | none => []

/-- FindQueryBuilder.prototype buildJoin: same as buildEager with the
graph-join loader. -/
def FindQueryBuilder.buildJoin (b : FindQueryBuilder)
    (params : List QueryParameter) : List QueryOp :=
  match params.find? (fun p => p.specialParameter = some "join".toList) with
  | some p =>
    (match b._allowEager with
     | some ae => if ae.isEmpty then [] else [.allowGraph ae]
     | none => []) ++ [.withGraphJoined p.value]
  | none => []

/-- FindQueryBuilder.prototype.build: parse and whitelist-check the
parameters, then apply count, joins, filters, groupBy, orderBy, range,
eager and join to the given builder, in that order; any thrown error
aborts the build. -/
def FindQueryBuilder.build (b : FindQueryBuilder) (params : List (Str × ParamValue))
    (builder0 : List QueryOp) : Except Err (List QueryOp) :=
  match b.parseQueryParameters params with
  | .error e => .error e
  | .ok parsed =>
    match b.buildFilters parsed with
    | .error e => .error e
    | .ok filterOps =>
      match b.buildOrderBy parsed with
      | .error e => .error e
      | .ok orderOps =>
        match b.buildRange parsed with
        | .error e => .error e
        | .ok rangeOps =>
          .ok (builder0 ++ b.buildCount parsed ++ b.buildJoins parsed ++ filterOps
            ++ b.buildGroupBy parsed ++ orderOps ++ rangeOps
            ++ b.buildEager parsed ++ b.buildJoin parsed)

/-! Concrete schema instances mirroring the test models: a Person with
a one-to-one parent relation, a one-to-many pets relation to Animal and
a many-to-many movies relation to Movie. -/

def movieModel : ModelClass :=
  { tableName := "Movie".toList
    className := "Movie".toList
    columns := [("id".toList, "id".toList), ("name".toList, "name".toList)] }

def animalModel : ModelClass :=
  { tableName := "Animal".toList
    className := "Animal".toList
    columns := [("id".toList, "id".toList), ("name".toList, "name".toList)] }

def personModel : ModelClass :=
  { tableName := "Person".toList
    className := "Person".toList
    columns :=
      [ ("id".toList, "id".toList)
      , ("firstName".toList, "firstName".toList)
      , ("lastName".toList, "lastName".toList)
      , ("age".toList, "age".toList) ] }

def parentRelation : Relation :=
  { name := "parent".toList
    oneToOne := true
    ownerTableName := "Person".toList
    relatedModel := personModel }

def petsRelation : Relation :=
  { name := "pets".toList
    oneToOne := false
    ownerTableName := "Person".toList
    relatedModel := animalModel }

def moviesRelation : Relation :=
  { name := "movies".toList
    oneToOne := false
    ownerTableName := "Person".toList
    relatedModel := movieModel }

def personBuilder : FindQueryBuilder :=
  mkFindQueryBuilder personModel [parentRelation, petsRelation, moviesRelation]

/-- A model that, besides ordinary properties, has properties whose
names collide with the default special-parameter keys eager and
orderBy (the collision the specialParameter rename exists for). -/
def collidingModel : ModelClass :=
  { tableName := "Thing".toList
    className := "Thing".toList
    columns :=
      [ ("id".toList, "id".toList)
      , ("eager".toList, "eager".toList)
      , ("orderBy".toList, "order_by".toList) ] }

def collidingBuilder : FindQueryBuilder := mkFindQueryBuilder collidingModel []

/-! Observations on query-operation traces used by the theorems. -/

/-- Whether an operation is a left join. -/
def QueryOp.isLeftJoin : QueryOp → Bool
  | .leftJoin _ _ => true
  | _ => false

/-- Whether an operation is a left join of the named relation. -/
def QueryOp.isLeftJoinNamed (n : Str) : QueryOp → Bool
  | .leftJoin m _ => m = n
  | _ => false

/-- How many left joins of the named relation a trace contains. -/
def countJoins (ops : List QueryOp) (n : Str) : Nat :=
  (ops.filter (QueryOp.isLeftJoinNamed n)).length

/-- Whether one property reference reaches the named relation through a
one-to-one hop. -/
def refTouches (ref : PropertyRef) (n : Str) : Bool :=
  match ref.relation with
  | some rel => rel.oneToOne && rel.name = n
  | none => false

/-- Whether some property reference of some parameter reaches the named
relation through a one-to-one hop. -/
def touchedB (params : List QueryParameter) (n : Str) : Bool :=
  params.any (fun p => p.propertyRefs.any (fun ref => refTouches ref n))

/-! Helper lemmas. -/

theorem exMapM_error {ε α β : Type} {f : α → Except ε β} {l : List α} {e : ε}
    (h : exMapM f l = .error e) : ∃ x ∈ l, f x = .error e := by
  induction l with
  | nil => simp [exMapM] at h
  | cons x xs ih =>
    simp only [exMapM] at h
    cases hx : f x with
    | error e' =>
      rw [hx] at h
      cases h
      exact ⟨x, List.mem_cons_self x xs, hx⟩
    | ok y =>
      rw [hx] at h
      cases hxs : exMapM f xs with
      | error e' =>
        rw [hxs] at h
        cases h
        obtain ⟨z, hz, hfz⟩ := ih hxs
        exact ⟨z, List.mem_cons_of_mem _ hz, hfz⟩
      | ok ys => rw [hxs] at h; cases h

theorem exMapM_error_of_mem {ε α β : Type} {f : α → Except ε β} {l : List α}
    {x : α} {e : ε} (hmem : x ∈ l) (hx : f x = .error e) :
    ∃ e', exMapM f l = .error e' := by
  induction l with
  | nil => cases hmem
  | cons y ys ih =>
    simp only [exMapM]
    cases hy : f y with
    | error e' => exact ⟨e', rfl⟩
    | ok b =>
      rcases List.mem_cons.mp hmem with rfl | hmem'
      · rw [hy] at hx; cases hx
      · obtain ⟨e', he'⟩ := ih hmem'
        exact ⟨e', by rw [he']; rfl⟩

theorem except_map_error {ε α β : Type} {x : Except ε α} {f : α → β} {e : ε}
    (h : x.map f = .error e) : x = .error e := by
  cases x with
  | error e' => cases h; rfl
  | ok a => simp [Except.map] at h

/-! Error-shape lemmas: which errors each phase can throw. -/

theorem propertyRef_parse_error {str : Str} {b : FindQueryBuilder} {e : Err}
    (h : PropertyRef.parse str b = .error e) : e.isNotAllowed = false := by
  unfold PropertyRef.parse PropertyRef.parseFinish at h
  repeat' split at h
  all_goals first
    | (cases h; rfl)
    | cases h

theorem parsePropertyRefList_error {b : FindQueryBuilder} {refs : List Str} {e : Err}
    (h : b.parsePropertyRefList refs = .error e) : e.isNotAllowed = false := by
  have h2 := except_map_error h
  obtain ⟨r, _, hr⟩ := exMapM_error h2
  have h3 := except_map_error hr
  exact propertyRef_parse_error h3

theorem queryParameter_parse_error {v k : Str} {b : FindQueryBuilder} {e : Err}
    (h : QueryParameter.parse v k b = .error e) : e.isNotAllowed = false := by
  unfold QueryParameter.parse QueryParameter.parseSpecialParam
    QueryParameter.parseFilterParam QueryParameter.mkFilterParam at h
  repeat' split at h
  all_goals first
    | (cases h; rfl)
    | (exact parsePropertyRefList_error (except_map_error h))
    | cases h

theorem parseParamsNoCheck_error {b : FindQueryBuilder}
    {params : List (Str × ParamValue)} {e : Err}
    (h : b.parseParamsNoCheck params = .error e) : e.isNotAllowed = false := by
  obtain ⟨kv, _, hkv⟩ := exMapM_error h
  exact queryParameter_parse_error hkv

theorem buildFilter_ref_error {ref : PropertyRef} {param : QueryParameter}
    {bop : Option Str} {e : Err}
    (h : ref.buildFilter param bop = .error e) : e = .typeErr := by
  unfold PropertyRef.buildFilter at h
  repeat' split at h
  all_goals first
    | (cases h; rfl)
    | cases h

theorem buildFilter_param_error {b : FindQueryBuilder} {param : QueryParameter}
    {e : Err} (h : b.buildFilter param = .error e) : e = .typeErr := by
  unfold FindQueryBuilder.buildFilter at h
  split at h
  · exact buildFilter_ref_error h
  · obtain ⟨x, _, hx⟩ := exMapM_error (except_map_error h)
    exact buildFilter_ref_error hx

theorem buildFilters_error {b : FindQueryBuilder} {params : List QueryParameter}
    {e : Err} (h : b.buildFilters params = .error e) : e = .typeErr := by
  obtain ⟨p, _, hp⟩ := exMapM_error (except_map_error h)
  exact buildFilter_param_error hp

theorem buildOrderByOne_error {b : FindQueryBuilder} {param : QueryParameter}
    {e : Err} (h : b.buildOrderByOne param = .error e) :
    e = .typeErr ∨ e = .orderByToMany := by
  unfold FindQueryBuilder.buildOrderByOne at h
  repeat' split at h
  all_goals first
    | (cases h; exact Or.inl rfl)
    | (cases h; exact Or.inr rfl)
    | cases h

theorem buildOrderBy_error {b : FindQueryBuilder} {params : List QueryParameter}
    {e : Err} (h : b.buildOrderBy params = .error e) :
    e = .typeErr ∨ e = .orderByToMany := by
  obtain ⟨p, _, hp⟩ := exMapM_error (except_map_error h)
  exact buildOrderByOne_error hp

theorem buildRange_error {b : FindQueryBuilder} {params : List QueryParameter}
    {e : Err} (h : b.buildRange params = .error e) :
    ∃ s t, e = .invalidRange s t := by
  unfold FindQueryBuilder.buildRange at h
  repeat' split at h
  all_goals first
    | (cases h; exact ⟨_, _, rfl⟩)
    | cases h

theorem build_error_shape {b : FindQueryBuilder} {params : List (Str × ParamValue)}
    {builder0 : List QueryOp} {e : Err}
    (h : b.build params builder0 = .error e) :
    b.parseQueryParameters params = .error e ∨ e.isNotAllowed = false := by
  unfold FindQueryBuilder.build at h
  split at h
  · cases h
    rename_i heq
    exact Or.inl heq
  · split at h
    · cases h
      rename_i hf
      rw [buildFilters_error hf]
      exact Or.inr rfl
    · split at h
      · cases h
        rename_i ho
        rcases buildOrderBy_error ho with h1 | h1 <;> rw [h1] <;> exact Or.inr rfl
      · split at h
        · cases h
          rename_i hr
          obtain ⟨s, t, rfl⟩ := buildRange_error hr
          exact Or.inr rfl
        · cases h

theorem parseQueryParameters_error_shape {b : FindQueryBuilder}
    {params : List (Str × ParamValue)} {e : Err}
    (h : b.parseQueryParameters params = .error e) :
    e.isNotAllowed = false ∨ (b._allowAll = false ∧ ∃ s, e = .notAllowed s) := by
  unfold FindQueryBuilder.parseQueryParameters at h
  split at h
  · cases h
    rename_i hp
    exact Or.inl (parseParamsNoCheck_error hp)
  · split at h
    · cases h
    · split at h
      · cases h
        refine Or.inr ⟨?_, _, rfl⟩
        simp_all
      · cases h

theorem build_error_when_allowAll {b : FindQueryBuilder}
    {params : List (Str × ParamValue)} {builder0 : List QueryOp} {e : Err}
    (hall : b._allowAll = true) (h : b.build params builder0 = .error e) :
    e.isNotAllowed = false := by
  rcases build_error_shape h with hp | hp
  · rcases parseQueryParameters_error_shape hp with h1 | ⟨h1, _⟩
    · exact h1
    · rw [hall] at h1; cases h1
  · exact hp

/-! Whitelist-loop lemmas. -/

theorem firstDisallowedRef_none {allow : List (Str × PropertyRef)}
    {refs : List PropertyRef} (h : firstDisallowedRef allow refs = none) :
    ∀ r ∈ refs, (assocLookup allow r.str).isSome := by
  induction refs with
  | nil => intro r hr; cases hr
  | cons r rs ih =>
    intro r' hr'
    unfold firstDisallowedRef at h
    split at h
    · rcases List.mem_cons.mp hr' with rfl | hmem
      · assumption
      · exact ih h r' hmem
    · cases h

theorem firstDisallowedRef_some {allow : List (Str × PropertyRef)}
    {refs : List PropertyRef} {s : Str} (h : firstDisallowedRef allow refs = some s) :
    ∃ r ∈ refs, r.str = s ∧ assocLookup allow r.str = none := by
  induction refs with
  | nil => cases h
  | cons r rs ih =>
    unfold firstDisallowedRef at h
    split at h
    · obtain ⟨r', hmem, hstr, hnone⟩ := ih h
      exact ⟨r', List.mem_cons_of_mem _ hmem, hstr, hnone⟩
    · cases h
      rename_i hfalse
      refine ⟨r, List.mem_cons_self .., rfl, ?_⟩
      cases hlook : assocLookup allow r.str with
      | none => rfl
      | some v => rw [hlook] at hfalse; simp at hfalse

theorem firstDisallowed_none {allow : List (Str × PropertyRef)}
    {parsed : List QueryParameter} (h : firstDisallowed allow parsed = none) :
    ∀ p ∈ parsed, ∀ r ∈ p.propertyRefs, (assocLookup allow r.str).isSome := by
  induction parsed with
  | nil => intro p hp; cases hp
  | cons p ps ih =>
    intro p' hp' r hr
    unfold firstDisallowed at h
    split at h
    · cases h
    · rcases List.mem_cons.mp hp' with rfl | hmem
      · rename_i hnone
        exact firstDisallowedRef_none hnone r hr
      · exact ih h p' hmem r hr

theorem firstDisallowed_some {allow : List (Str × PropertyRef)}
    {parsed : List QueryParameter} {s : Str}
    (h : firstDisallowed allow parsed = some s) :
    ∃ p ∈ parsed, ∃ r ∈ p.propertyRefs, r.str = s ∧ assocLookup allow r.str = none := by
  induction parsed with
  | nil => cases h
  | cons p ps ih =>
    unfold firstDisallowed at h
    split at h
    · cases h
      rename_i hsome
      obtain ⟨r, hmem, hstr, hnone⟩ := firstDisallowedRef_some hsome
      exact ⟨p, List.mem_cons_self .., r, hmem, hstr, hnone⟩
    · obtain ⟨p', hmem, hrest⟩ := ih h
      exact ⟨p', List.mem_cons_of_mem _ hmem, hrest⟩

theorem firstDisallowed_isSome {allow : List (Str × PropertyRef)}
    {parsed : List QueryParameter}
    (h : ∃ p ∈ parsed, ∃ r ∈ p.propertyRefs, assocLookup allow r.str = none) :
    (firstDisallowed allow parsed).isSome := by
  cases hfd : firstDisallowed allow parsed with
  | some s => rfl
  | none =>
    obtain ⟨p, hp, r, hr, hnone⟩ := h
    have := firstDisallowed_none hfd p hp r hr
    rw [hnone] at this
    cases this

/-- C2: when the whitelist has been narrowed (allow-all off) and the
parameters parse, a parameter set containing any property reference
outside the allow container makes the build fail with the permission
error naming an offending path, and the failure already happens inside
parameter parsing (before any operation is applied to the query); when
every referenced path is allowed, no permission error can be raised by
the build. -/
theorem whitelist_enforced (b : FindQueryBuilder) (params : List (Str × ParamValue))
    (builder0 : List QueryOp) (parsed : List QueryParameter)
    (hAll : b._allowAll = false)
    (hparse : b.parseParamsNoCheck params = .ok parsed) :
    ((∃ p ∈ parsed, ∃ r ∈ p.propertyRefs, assocLookup b._allow r.str = none) →
      ∃ s, b.parseQueryParameters params = .error (.notAllowed s)
        ∧ b.build params builder0 = .error (.notAllowed s)
        ∧ ∃ p ∈ parsed, ∃ r ∈ p.propertyRefs,
            r.str = s ∧ assocLookup b._allow r.str = none)
    ∧ ((∀ p ∈ parsed, ∀ r ∈ p.propertyRefs, (assocLookup b._allow r.str).isSome) →
      ∀ e, b.build params builder0 = .error e → e.isNotAllowed = false) := by
  constructor
  · intro hex
    have hs := firstDisallowed_isSome hex
    cases hfd : firstDisallowed b._allow parsed with
    | none => rw [hfd] at hs; cases hs
    | some s =>
      have hpq : b.parseQueryParameters params = .error (.notAllowed s) := by
        unfold FindQueryBuilder.parseQueryParameters
        simp [hparse, hAll, hfd]
      have hb : b.build params builder0 = .error (.notAllowed s) := by
        unfold FindQueryBuilder.build
        simp [hpq]
      obtain ⟨p, hp, r, hr, hstr, hnone⟩ := firstDisallowed_some hfd
      exact ⟨s, hpq, hb, p, hp, r, hr, hstr, hnone⟩
  · intro hallOk e hbe
    have hfd : firstDisallowed b._allow parsed = none := by
      cases hfd : firstDisallowed b._allow parsed with
      | none => rfl
      | some s =>
        obtain ⟨p, hp, r, hr, hstr, hnone⟩ := firstDisallowed_some hfd
        have := hallOk p hp r hr
        rw [hnone] at this
        cases this
    have hpq : b.parseQueryParameters params = .ok parsed := by
      unfold FindQueryBuilder.parseQueryParameters
      simp [hparse, hAll, hfd]
    rcases build_error_shape hbe with h1 | h1
    · rw [hpq] at h1
      cases h1
    · exact h1

/-- The whitelist-narrowed builder of the C2 witness: only firstName
is allowed. -/
def c2Builder : FindQueryBuilder :=
  match personBuilder.allow ["firstName".toList] with
  | .ok b => b
  | .error _ => personBuilder

def c2Params : List (Str × ParamValue) := [("lastName".toList, .str "x".toList)]

def c2Parsed : List QueryParameter :=
  match c2Builder.parseParamsNoCheck c2Params with
  | .ok l => l
  | .error _ => []

def emptyQueryParameter : QueryParameter :=
  { key := [], value := [], specialParameter := none, propertyRefs := [], filter := none }

def c2ParsedParam : QueryParameter :=
  match c2Builder.parseParamsNoCheck c2Params with
  | .ok (p :: _) => p
  | _ => emptyQueryParameter

def c2Ref : PropertyRef :=
  match c2ParsedParam.propertyRefs with
  | r :: _ => r
  | [] =>
    { str := [], modelClass := personModel, relation := none
      propertyName := [], columnName := [] }

/-- Witness for C2: with whitelist firstName, the parameter lastName=x
fails with the permission error. -/
theorem whitelist_enforced_witness :
    ∃ s, c2Builder.build c2Params [] = .error (.notAllowed s) := by
  obtain ⟨s, hpq, hb, hrest⟩ :=
    (whitelist_enforced c2Builder c2Params [] c2Parsed rfl rfl).1
      ⟨c2ParsedParam, List.mem_cons_self .., c2Ref, List.mem_cons_self .., rfl⟩
  exact ⟨s, hb⟩

theorem except_map_ok {ε α β : Type} {x : Except ε α} {f : α → β} {y : β}
    (h : x.map f = .ok y) : ∃ a, x = .ok a ∧ y = f a := by
  cases x with
  | error e => simp [Except.map] at h
  | ok a => cases h; exact ⟨a, rfl, rfl⟩

/-- C10: allowAll ignores its argument, always turns allow-all mode
back on and resets the allow container; with allow-all on no build can
fail with a permission error; and among the configuration operations
only allow turns allow-all mode off again. -/
theorem allowAll_ignores_argument (b : FindQueryBuilder) (x y : Bool)
    (params : List (Str × ParamValue)) (builder0 : List QueryOp)
    (fn n pn exp : Str) (g : FilterFn) (refs : List Str)
    (b' : FindQueryBuilder) (e : Err)
    (hallow : b.allow refs = .ok b')
    (hbuild : (b.allowAll x).build params builder0 = .error e) :
    b.allowAll x = b.allowAll y
    ∧ (b.allowAll x)._allowAll = true
    ∧ (b.allowAll x)._allow = []
    ∧ e.isNotAllowed = false
    ∧ (b.registerFilter fn g)._allowAll = b._allowAll
    ∧ (b.specialParameter n pn)._allowAll = b._allowAll
    ∧ (b.allowEager exp)._allowAll = b._allowAll
    ∧ b'._allowAll = false := by
  refine ⟨rfl, rfl, rfl, ?_, rfl, rfl, rfl, ?_⟩
  · exact build_error_when_allowAll rfl hbuild
  · unfold FindQueryBuilder.allow at hallow
    obtain ⟨a, _, hb'⟩ := except_map_ok hallow
    rw [hb']

/-- Witness for C10: allowAll false and allowAll true coincide; a build
that fails after allowAll false fails with a non-permission error. -/
theorem allowAll_ignores_argument_witness :
    personBuilder.allowAll false = personBuilder.allowAll true
    ∧ (personBuilder.allowAll false)._allowAll = true
    ∧ (personBuilder.allowAll false)._allow = []
    ∧ (Err.tooDeep).isNotAllowed = false
    ∧ (personBuilder.registerFilter "f".toList Filters.eq)._allowAll
        = personBuilder._allowAll
    ∧ (personBuilder.specialParameter "count".toList "cnt".toList)._allowAll
        = personBuilder._allowAll
    ∧ (personBuilder.allowEager "pets".toList)._allowAll = personBuilder._allowAll
    ∧ c2Builder._allowAll = false :=
  allowAll_ignores_argument personBuilder false true
    [("a..b".toList, .str "x".toList)] [] "f".toList "count".toList "cnt".toList
    "pets".toList Filters.eq ["firstName".toList] c2Builder .tooDeep rfl rfl

/-! Membership lemmas for the join-collection phase. -/

theorem uniqByName_subset {rels : List Relation} {x : Relation}
    (h : x ∈ uniqByName rels) : x ∈ rels := by
  suffices haux : ∀ (l acc : List Relation),
      x ∈ l.foldl (fun acc rel =>
        if acc.any (fun r => r.name = rel.name) then acc else acc ++ [rel]) acc →
      x ∈ acc ∨ x ∈ l by
    rcases haux rels [] h with h1 | h1
    · cases h1
    · exact h1
  intro l
  induction l with
  | nil => intro acc h'; exact Or.inl h'
  | cons r rs ih =>
    intro acc h'
    simp only [List.foldl_cons] at h'
    rcases ih _ h' with h1 | h1
    · split at h1
      · exact Or.inl h1
      · rcases List.mem_append.mp h1 with h2 | h2
        · exact Or.inl h2
        · rcases List.mem_singleton.mp h2 with rfl
          exact Or.inr (List.mem_cons_self ..)
    · exact Or.inr (List.mem_cons_of_mem _ h1)

theorem mem_relationsToJoin {params : List QueryParameter} {rel : Relation}
    (h : rel ∈ relationsToJoin params) :
    rel.oneToOne = true
      ∧ ∃ p ∈ params, ∃ r ∈ p.propertyRefs, r.relation = some rel := by
  unfold relationsToJoin at h
  obtain ⟨p, hp, hmem⟩ := List.mem_flatMap.mp h
  obtain ⟨r, hr, hfm⟩ := List.mem_filterMap.mp hmem
  cases hrel : r.relation with
  | none => rw [hrel] at hfm; cases hfm
  | some rel2 =>
    rw [hrel] at hfm
    by_cases h1 : rel2.oneToOne = true
    · simp only [h1, if_true, Option.some.injEq] at hfm
      subst hfm
      exact ⟨h1, p, hp, r, hr, hrel⟩
    · simp [h1] at hfm

/-- C1: a filter branch whose property reference traverses a relation
that is not one-to-one contributes exactly one whereExists operation
scoped to that relation (the predicate lives inside the subquery), and
the join phase only ever emits left joins for one-to-one relations
reached by some property reference. -/
theorem toMany_filter_via_exists (ref : PropertyRef) (rel : Relation)
    (param : QueryParameter) (boolOp : Option Str) (f : FilterFn)
    (b : FindQueryBuilder) (params : List QueryParameter) (n a : Str)
    (hf : param.filter = some f)
    (hrel : ref.relation = some rel)
    (hmany : rel.oneToOne = false) :
    (∃ m args, ref.buildFilter param boolOp
        = .ok [.whereExists rel.name rel.relatedModel.className m args])
    ∧ (QueryOp.leftJoin n a ∈ b.buildJoins params →
        ∃ p ∈ params, ∃ r ∈ p.propertyRefs, ∃ rel2,
          r.relation = some rel2 ∧ rel2.oneToOne = true ∧ rel2.name = n) := by
  constructor
  · have hcall : ref.buildFilter param boolOp
        = .ok [.whereExists rel.name rel.relatedModel.className
            (match boolOp with
             | some bop => bop ++ upperFirst (f ref param.value ref.modelClass).method
             | none => (f ref param.value ref.modelClass).method)
            (f ref param.value ref.modelClass).args] := by
      unfold PropertyRef.buildFilter
      rw [hf, hrel]
      simp [hmany]
    exact ⟨_, _, hcall⟩
  · intro hmem
    unfold FindQueryBuilder.buildJoins at hmem
    rcases List.mem_append.mp hmem with h1 | h1
    · obtain ⟨rel2, hrel2, heq⟩ := List.mem_map.mp h1
      cases heq
      obtain ⟨h1to1, p, hp, r, hr, hrrel⟩ :=
        mem_relationsToJoin (uniqByName_subset hrel2)
      exact ⟨p, hp, r, hr, rel2, hrrel, h1to1, rfl⟩
    · split at h1
      · cases h1
      · rcases List.mem_singleton.mp h1 with heq
        cases heq

/-- The pets.name property reference and a like filter parameter over
it, as parsing pets.name:like=Fluf% produces them. -/
def petsNameRef : PropertyRef :=
  { str := "pets.name".toList
    modelClass := animalModel
    relation := some petsRelation
    propertyName := "name".toList
    columnName := "name".toList }

def petsLikeParam : QueryParameter :=
  { key := "pets.name:like".toList
    value := "Fluf%".toList
    specialParameter := none
    propertyRefs := [petsNameRef]
    filter := some Filters.like }

/-- Witness for C1: the pets.name:like branch becomes a whereExists
scoped to the pets relation. -/
theorem toMany_filter_via_exists_witness :
    (∃ m args, petsNameRef.buildFilter petsLikeParam none
        = .ok [.whereExists petsRelation.name petsRelation.relatedModel.className m args])
    ∧ (QueryOp.leftJoin "pets".toList "Person_rel_pets".toList
          ∈ personBuilder.buildJoins [petsLikeParam] →
        ∃ p ∈ [petsLikeParam], ∃ r ∈ p.propertyRefs, ∃ rel2,
          r.relation = some rel2 ∧ rel2.oneToOne = true ∧ rel2.name = "pets".toList) :=
  toMany_filter_via_exists petsNameRef petsRelation petsLikeParam none Filters.like
    personBuilder [petsLikeParam] "pets".toList "Person_rel_pets".toList rfl rfl rfl

/-! Counting lemmas for the join phase. -/

theorem uniqByName_names_nodup (rels : List Relation) :
    ((uniqByName rels).map (fun r => r.name)).Nodup := by
  suffices haux : ∀ (l acc : List Relation), (acc.map (fun r => r.name)).Nodup →
      ((l.foldl (fun acc rel =>
          if acc.any (fun r => r.name = rel.name) then acc else acc ++ [rel]) acc).map
        (fun r => r.name)).Nodup from
    haux rels [] List.nodup_nil
  intro l
  induction l with
  | nil => intro acc h; exact h
  | cons r rs ih =>
    intro acc h
    simp only [List.foldl_cons]
    apply ih
    by_cases hc : acc.any (fun r2 => r2.name = r.name) = true
    · rw [if_pos hc]
      exact h
    · rw [if_neg hc]
      rw [List.map_append, List.nodup_append]
      refine ⟨h, List.nodup_singleton _, ?_⟩
      intro x hx hx2
      rcases List.mem_singleton.mp hx2 with rfl
      obtain ⟨r2, hr2, hname⟩ := List.mem_map.mp hx
      rw [Bool.not_eq_true, List.any_eq_false] at hc
      exact absurd (by simpa using hname) (by simpa using hc r2 hr2)

theorem uniqByName_names_mem (rels : List Relation) (n : Str) :
    n ∈ (uniqByName rels).map (fun r => r.name) ↔ n ∈ rels.map (fun r => r.name) := by
  suffices haux : ∀ (l acc : List Relation),
      (n ∈ ((l.foldl (fun acc rel =>
          if acc.any (fun r => r.name = rel.name) then acc else acc ++ [rel]) acc).map
        (fun r => r.name))
        ↔ n ∈ acc.map (fun r => r.name) ∨ n ∈ l.map (fun r => r.name)) by
    rw [uniqByName, haux rels []]
    simp
  intro l
  induction l with
  | nil => intro acc; simp
  | cons r rs ih =>
    intro acc
    simp only [List.foldl_cons]
    rw [ih]
    have hstep : n ∈ ((if acc.any (fun r2 => r2.name = r.name) then acc
          else acc ++ [r]).map (fun r2 => r2.name))
        ↔ n ∈ acc.map (fun r2 => r2.name) ∨ n = r.name := by
      by_cases hc : acc.any (fun r2 => r2.name = r.name) = true
      · rw [if_pos hc]
        rw [List.any_eq_true] at hc
        obtain ⟨r2, hr2, hname⟩ := hc
        constructor
        · exact Or.inl
        · rintro (h1 | rfl)
          · exact h1
          · exact List.mem_map.mpr ⟨r2, hr2, by simpa using hname⟩
      · rw [if_neg hc]
        simp
    rw [hstep]
    simp only [List.map_cons, List.mem_cons]
    tauto

theorem countJoins_map_mk (l : List Relation) (pre n : Str)
    (hnodup : (l.map (fun r => r.name)).Nodup) :
    ((l.map (fun rel => QueryOp.leftJoin rel.name (pre ++ rel.name))).filter
        (QueryOp.isLeftJoinNamed n)).length
      = if n ∈ l.map (fun r => r.name) then 1 else 0 := by
  induction l with
  | nil => simp
  | cons r rs ih =>
    simp only [List.map_cons, List.filter_cons]
    simp only [List.map_cons, List.nodup_cons] at hnodup
    by_cases hr : r.name = n
    · have hnot : n ∉ rs.map (fun r2 => r2.name) := hr ▸ hnodup.1
      have hzero : ((rs.map (fun rel => QueryOp.leftJoin rel.name
          (pre ++ rel.name))).filter (QueryOp.isLeftJoinNamed n)).length = 0 := by
        rw [ih hnodup.2, if_neg hnot]
      simp [QueryOp.isLeftJoinNamed, hr, hzero]
    · have hcond : QueryOp.isLeftJoinNamed n (QueryOp.leftJoin r.name (pre ++ r.name))
          = false := by
        simp [QueryOp.isLeftJoinNamed, hr]
      have hmemiff : (n ∈ r.name :: rs.map (fun r2 => r2.name))
          ↔ n ∈ rs.map (fun r2 => r2.name) := by
        constructor
        · intro h
          rcases List.mem_cons.mp h with h1 | h1
          · exact absurd h1.symm hr
          · exact h1
        · exact List.mem_cons_of_mem _
      rw [hcond, if_neg Bool.false_ne_true, if_congr hmemiff rfl rfl]
      exact ih hnodup.2

theorem refTouches_iff {ref : PropertyRef} {n : Str} :
    refTouches ref n = true
      ↔ ∃ rel, ref.relation = some rel ∧ rel.oneToOne = true ∧ rel.name = n := by
  cases h : ref.relation with
  | none => simp [refTouches, h]
  | some rel2 => simp [refTouches, h]

theorem touchedB_iff {params : List QueryParameter} {n : Str} :
    touchedB params n = true ↔ n ∈ (relationsToJoin params).map (fun r => r.name) := by
  constructor
  · intro h
    obtain ⟨p, hp, h2⟩ := List.any_eq_true.mp h
    obtain ⟨ref, href, h3⟩ := List.any_eq_true.mp h2
    obtain ⟨rel, hrel, h1to1, hname⟩ := refTouches_iff.mp h3
    refine List.mem_map.mpr ⟨rel, ?_, hname⟩
    refine List.mem_flatMap.mpr ⟨p, hp, ?_⟩
    refine List.mem_filterMap.mpr ⟨ref, href, ?_⟩
    rw [hrel]
    simp [h1to1]
  · intro h
    obtain ⟨rel, hrel, hname⟩ := List.mem_map.mp h
    obtain ⟨h1to1, p, hp, r, hr, hrrel⟩ := mem_relationsToJoin hrel
    refine List.any_eq_true.mpr ⟨p, hp, ?_⟩
    refine List.any_eq_true.mpr ⟨r, hr, ?_⟩
    exact refTouches_iff.mpr ⟨rel, hrrel, h1to1, hname⟩

/-- C5: within one build, each distinct one-to-one relation touched by
any property reference receives exactly one left join (one when
touched, zero otherwise), and whenever any join was collected the root
table's own columns are explicitly selected. -/
theorem one_join_per_relation (b : FindQueryBuilder) (params : List QueryParameter)
    (n : Str) :
    countJoins (b.buildJoins params) n = (if touchedB params n then 1 else 0)
    ∧ (relationsToJoin params ≠ [] →
        QueryOp.select [b._modelClass.tableName ++ ".*".toList] ∈ b.buildJoins params) := by
  constructor
  · unfold FindQueryBuilder.buildJoins countJoins
    rw [List.filter_append, List.length_append]
    have h2 : ((if (relationsToJoin params).isEmpty then ([] : List QueryOp)
        else [.select [b._modelClass.tableName ++ ".*".toList]]).filter
          (QueryOp.isLeftJoinNamed n)).length = 0 := by
      split <;> simp [QueryOp.isLeftJoinNamed]
    rw [h2, Nat.add_zero,
      countJoins_map_mk _ _ _ (uniqByName_names_nodup (relationsToJoin params))]
    have hiff : n ∈ (uniqByName (relationsToJoin params)).map (fun r => r.name)
        ↔ touchedB params n = true :=
      (uniqByName_names_mem _ _).trans touchedB_iff.symm
    exact if_congr hiff rfl rfl
  · intro hne
    unfold FindQueryBuilder.buildJoins
    have h3 : (relationsToJoin params).isEmpty = false := by
      rw [Bool.eq_false_iff]
      intro hcontra
      exact hne (List.isEmpty_iff.mp hcontra)
    simp [h3]

/-- The parent.age property reference and a lt filter parameter over
it, as parsing parent.age:lt=60 produces them. -/
def parentAgeRef : PropertyRef :=
  { str := "parent.age".toList
    modelClass := personModel
    relation := some parentRelation
    propertyName := "age".toList
    columnName := "age".toList }

def parentLtParam : QueryParameter :=
  { key := "parent.age:lt".toList
    value := "60".toList
    specialParameter := none
    propertyRefs := [parentAgeRef]
    filter := some Filters.lt }

/-- Witness for C5 at a parameter set touching the parent relation. -/
theorem one_join_per_relation_witness :
    countJoins (personBuilder.buildJoins [parentLtParam]) "parent".toList
        = (if touchedB [parentLtParam] "parent".toList then 1 else 0)
    ∧ (relationsToJoin [parentLtParam] ≠ [] →
        QueryOp.select ["Person.*".toList]
          ∈ personBuilder.buildJoins [parentLtParam]) :=
  one_join_per_relation personBuilder [parentLtParam] "parent".toList

/-- C7: an ordering directive with no relation orders by the property's
own column; through a one-to-one relation it selects the column under
the relation-name-plus-property-name alias and orders by that alias;
through any other relation it throws the ordering error, which aborts
the whole ordering phase and is distinct from every error a filter can
throw. -/
theorem ordering_semantics (b : FindQueryBuilder) (param : QueryParameter)
    (orderType : Str) (ref : PropertyRef) (rest : List PropertyRef) (rel : Relation)
    (params3 : List QueryParameter) (param2 : QueryParameter) (ref2 : PropertyRef)
    (bop : Option Str) (e2 : Err)
    (hsp : param.specialParameter = some orderType)
    (hord : containsSub "orderBy".toList orderType = true)
    (hrefs : param.propertyRefs = ref :: rest) :
    (ref.relation = none → b.buildOrderByOne param
      = .ok [.orderBy ref.columnName
          (if orderType = "orderByDesc".toList then "desc".toList else "asc".toList)])
    ∧ (ref.relation = some rel → rel.oneToOne = true →
        b.buildOrderByOne param
          = .ok [ .select [ref.fullColumnName ++ " as ".toList
                    ++ (rel.name ++ capitalize ref.propertyName)]
                , .orderBy (rel.name ++ capitalize ref.propertyName)
                    (if orderType = "orderByDesc".toList then "desc".toList
                     else "asc".toList)])
    ∧ (ref.relation = some rel → rel.oneToOne = false →
        b.buildOrderByOne param = .error .orderByToMany
        ∧ (param ∈ params3 → ∃ e3, b.buildOrderBy params3 = .error e3))
    ∧ (ref2.buildFilter param2 bop = .error e2 → e2 ≠ .orderByToMany) := by
  have hbase : ∀ (out : Except Err (List QueryOp)),
      (match ref.relation with
        | some rel2 =>
          if rel2.oneToOne then
            .ok [ QueryOp.select [ref.fullColumnName ++ " as ".toList
                    ++ (rel2.name ++ capitalize ref.propertyName)]
                , QueryOp.orderBy (rel2.name ++ capitalize ref.propertyName)
                    (if orderType = "orderByDesc".toList then "desc".toList
                     else "asc".toList) ]
          else Except.error Err.orderByToMany
        | none =>
          .ok [QueryOp.orderBy ref.columnName
            (if orderType = "orderByDesc".toList then "desc".toList
             else "asc".toList)]) = out →
      b.buildOrderByOne param = out := by
    intro out hmatch
    unfold FindQueryBuilder.buildOrderByOne
    rw [hsp]
    simp only [hord, if_true, hrefs]
    exact hmatch
  refine ⟨?_, ?_, ?_, ?_⟩
  · intro hnone
    exact hbase _ (by rw [hnone])
  · intro hsome h1to1
    exact hbase _ (by rw [hsome]; simp [h1to1])
  · intro hsome hmany
    have herr : b.buildOrderByOne param = .error .orderByToMany :=
      hbase _ (by rw [hsome]; simp [hmany])
    refine ⟨herr, ?_⟩
    intro hmem
    obtain ⟨e', he'⟩ := exMapM_error_of_mem hmem herr
    refine ⟨e', ?_⟩
    unfold FindQueryBuilder.buildOrderBy
    rw [he']
    rfl
  · intro herr2
    rw [buildFilter_ref_error herr2]
    intro hcontra
    cases hcontra

/-- The parent.firstName reference and the orderByDesc directive over
it, as parsing orderByDesc=parent.firstName produces them. -/
def parentFirstNameRef : PropertyRef :=
  { str := "parent.firstName".toList
    modelClass := personModel
    relation := some parentRelation
    propertyName := "firstName".toList
    columnName := "firstName".toList }

def orderByDescParentParam : QueryParameter :=
  { key := "orderByDesc".toList
    value := "parent.firstName".toList
    specialParameter := some "orderByDesc".toList
    propertyRefs := [parentFirstNameRef]
    filter := none }

/-- Witness for C7 at the orderByDesc=parent.firstName directive. -/
theorem ordering_semantics_witness :
    (parentFirstNameRef.relation = none →
      personBuilder.buildOrderByOne orderByDescParentParam
        = .ok [.orderBy parentFirstNameRef.columnName
            (if "orderByDesc".toList = "orderByDesc".toList then "desc".toList
             else "asc".toList)])
    ∧ (parentFirstNameRef.relation = some parentRelation →
        parentRelation.oneToOne = true →
        personBuilder.buildOrderByOne orderByDescParentParam
          = .ok [ .select [parentFirstNameRef.fullColumnName ++ " as ".toList
                    ++ (parentRelation.name ++ capitalize parentFirstNameRef.propertyName)]
                , .orderBy (parentRelation.name
                      ++ capitalize parentFirstNameRef.propertyName)
                    (if "orderByDesc".toList = "orderByDesc".toList then "desc".toList
                     else "asc".toList)])
    ∧ (parentFirstNameRef.relation = some parentRelation →
        parentRelation.oneToOne = false →
        personBuilder.buildOrderByOne orderByDescParentParam = .error .orderByToMany
        ∧ (orderByDescParentParam ∈ [orderByDescParentParam] →
            ∃ e3, personBuilder.buildOrderBy [orderByDescParentParam] = .error e3))
    ∧ (petsNameRef.buildFilter petsLikeParam none = .error .typeErr →
        Err.typeErr ≠ .orderByToMany) :=
  ordering_semantics personBuilder orderByDescParentParam "orderByDesc".toList
    parentFirstNameRef [] parentRelation [orderByDescParentParam] petsLikeParam
    petsNameRef none .typeErr rfl rfl rfl

/-! Splitting lemmas for the filter-key grammar. -/

theorem jsSplit_cons (c x : Char) (xs : Str) :
    jsSplit c (x :: xs)
      = match jsSplit c xs with
        | [] => [[]]
        | h :: t => if x = c then [] :: h :: t else (x :: h) :: t := rfl

theorem jsSplit_ne_nil (c : Char) (l : Str) : jsSplit c l ≠ [] := by
  induction l with
  | nil => simp [jsSplit]
  | cons x xs ih =>
    rw [jsSplit_cons]
    cases h : jsSplit c xs with
    | nil => simp
    | cons hh tt => by_cases hx : x = c <;> simp [hx]

theorem jsSplit_of_not_mem {c : Char} {l : Str} (h : c ∉ l) : jsSplit c l = [l] := by
  induction l with
  | nil => rfl
  | cons x xs ih =>
    have hx : ¬(x = c) := by
      intro heq
      subst heq
      exact h (List.mem_cons_self ..)
    have hxs : c ∉ xs := fun hm => h (List.mem_cons_of_mem _ hm)
    rw [jsSplit_cons, ih hxs]
    simp [hx]

theorem jsSplit_append_cons {c : Char} {a b : Str} (h : c ∉ a) :
    jsSplit c (a ++ c :: b) = a :: jsSplit c b := by
  induction a with
  | nil =>
    simp only [List.nil_append]
    rw [jsSplit_cons]
    cases hb : jsSplit c b with
    | nil => exact absurd hb (jsSplit_ne_nil c b)
    | cons hh tt => simp
  | cons x xs ih =>
    have hx : ¬(x = c) := by
      intro heq
      subst heq
      exact h (List.mem_cons_self ..)
    have hxs : c ∉ xs := fun hm => h (List.mem_cons_of_mem _ hm)
    simp only [List.cons_append]
    rw [jsSplit_cons, ih hxs]
    simp [hx]

theorem stripWs_append (a b : Str) : stripWs (a ++ b) = stripWs a ++ stripWs b :=
  List.filter_append ..

/-- C8 counterexample: with a model that has a property named eager and
the default configuration, the key eager parses as a directive (no
filter function, no property references) while eager:eq parses as an eq
filter with one reference — so the claimed equivalence fails for the
property path eager. -/
theorem default_filter_eq_counterexample :
    (QueryParameter.parse "x".toList "eager".toList collidingBuilder).map
        (fun q => (q.specialParameter, q.filter.isSome, q.propertyRefs.length))
      = .ok (some "eager".toList, false, 0)
    ∧ (QueryParameter.parse "x".toList "eager:eq".toList collidingBuilder).map
        (fun q => (q.specialParameter, q.filter.isSome, q.propertyRefs.length))
      = .ok (none, true, 1) :=
  ⟨rfl, rfl⟩

/-- C8 (amended): for a key that is not a configured special-parameter
name (and whose eq-suffixed form is not one either) and whose stripped
form contains no colon, parsing the bare key and parsing the key with
the :eq suffix produce the same directive kind, property references and
filter function — the built-in eq filter — whenever the builder's
registered eq filter is the built-in one. -/
theorem default_filter_eq (b : FindQueryBuilder) (p v : Str)
    (heq : assocLookup b._filters "eq".toList = some Filters.eq)
    (hsp1 : assocLookup b._inverseSpecialParameterMap p = none)
    (hsp2 : assocLookup b._inverseSpecialParameterMap (p ++ ":eq".toList) = none)
    (hcolon : ':' ∉ stripWs p) :
    (QueryParameter.parse v p b).map
        (fun q => (q.specialParameter, q.propertyRefs, q.filter))
      = (QueryParameter.parse v (p ++ ":eq".toList) b).map
          (fun q => (q.specialParameter, q.propertyRefs, q.filter))
    ∧ (∀ q, QueryParameter.parse v p b = .ok q → q.filter = some Filters.eq) := by
  have h1 : QueryParameter.parse v p b
      = QueryParameter.mkFilterParam v p b (some Filters.eq) (stripWs p) := by
    unfold QueryParameter.parse
    rw [hsp1]
    unfold QueryParameter.parseFilterParam
    rw [jsSplit_of_not_mem hcolon]
  have hstrip : stripWs (p ++ ":eq".toList) = stripWs p ++ ":eq".toList := by
    rw [stripWs_append]
    rfl
  have hsplit2 : jsSplit ':' (stripWs (p ++ ":eq".toList))
      = [stripWs p, "eq".toList] := by
    rw [hstrip, show ":eq".toList = ':' :: "eq".toList from rfl,
      jsSplit_append_cons hcolon,
      jsSplit_of_not_mem (by decide : ':' ∉ "eq".toList)]
  have h2 : QueryParameter.parse v (p ++ ":eq".toList) b
      = QueryParameter.mkFilterParam v (p ++ ":eq".toList) b
          (assocLookup b._filters "eq".toList) (stripWs p) := by
    unfold QueryParameter.parse
    rw [hsp2]
    unfold QueryParameter.parseFilterParam
    rw [hsplit2]
  rw [heq] at h2
  constructor
  · rw [h1, h2]
    unfold QueryParameter.mkFilterParam
    cases hrefs : b.parsePropertyRefList (jsSplit '|' (stripWs p)) with
    | error e => simp [Except.map]
    | ok refs => simp [Except.map]
  · intro q hq
    rw [h1] at hq
    unfold QueryParameter.mkFilterParam at hq
    cases hrefs : b.parsePropertyRefList (jsSplit '|' (stripWs p)) with
    | error e =>
      rw [hrefs] at hq
      cases hq
    | ok refs =>
      rw [hrefs] at hq
      simp only [Except.map] at hq
      cases hq
      rfl

/-- Witness for C8 (amended) at the path firstName. -/
theorem default_filter_eq_witness :
    (QueryParameter.parse "Jennifer".toList "firstName".toList personBuilder).map
        (fun q => (q.specialParameter, q.propertyRefs, q.filter))
      = (QueryParameter.parse "Jennifer".toList
            ("firstName".toList ++ ":eq".toList) personBuilder).map
          (fun q => (q.specialParameter, q.propertyRefs, q.filter))
    ∧ (∀ q, QueryParameter.parse "Jennifer".toList "firstName".toList personBuilder
          = .ok q → q.filter = some Filters.eq) :=
  default_filter_eq personBuilder "firstName".toList "Jennifer".toList rfl rfl rfl
    (by decide)

theorem parseFilterParam_sp {v k : Str} {b : FindQueryBuilder} {q : QueryParameter}
    (h : QueryParameter.parseFilterParam v k b = .ok q) :
    q.specialParameter = none := by
  unfold QueryParameter.parseFilterParam QueryParameter.mkFilterParam at h
  repeat' split at h
  all_goals first
    | cases h
    | (obtain ⟨a, _, hq⟩ := except_map_ok h; subst hq; rfl)

theorem parseSpecialParam_sp {v k s : Str} {b : FindQueryBuilder}
    {q : QueryParameter} (h : QueryParameter.parseSpecialParam v k b s = .ok q) :
    q.specialParameter = some s := by
  unfold QueryParameter.parseSpecialParam at h
  split at h
  · obtain ⟨a, _, hq⟩ := except_map_ok h
    subst hq
    rfl
  · cases h
    rfl

/-- C9 counterexample: the raw key with a leading space before orderBy
strips to the configured special name orderBy, yet is parsed as a
filter parameter (an eq filter over a property named orderBy), not as
the ordering directive. -/
theorem directive_detection_counterexample :
    (QueryParameter.parse "x".toList " orderBy".toList collidingBuilder).map
        (fun q => (q.specialParameter, q.filter.isSome, q.propertyRefs.length))
      = .ok (none, true, 1)
    ∧ stripWs " orderBy".toList = "orderBy".toList
    ∧ assocLookup collidingBuilder._inverseSpecialParameterMap "orderBy".toList
        = some "orderBy".toList :=
  ⟨rfl, rfl, rfl⟩

/-- C9 (amended): a raw key is parsed as a directive exactly when the
key itself — verbatim, with no whitespace stripping — is a configured
special-parameter name (with a non-empty logical name); whitespace
stripping is applied only to keys parsed as filters. -/
theorem directive_detection (b : FindQueryBuilder) (v key : Str)
    (q : QueryParameter)
    (hok : QueryParameter.parse v key b = .ok q) :
    (q.specialParameter.isSome = true
      ↔ ∃ s, assocLookup b._inverseSpecialParameterMap key = some s
          ∧ s.isEmpty = false)
    ∧ (∀ s, assocLookup b._inverseSpecialParameterMap key = some s →
        s.isEmpty = false → q.specialParameter = some s) := by
  unfold QueryParameter.parse at hok
  split at hok
  · rename_i s heq
    by_cases hs : s.isEmpty = true
    · rw [if_pos hs] at hok
      have hnone := parseFilterParam_sp hok
      constructor
      · rw [hnone]
        simp only [Option.isSome_none, Bool.false_eq_true, false_iff]
        rintro ⟨s', heq', hne⟩
        rw [heq] at heq'
        cases heq'
        rw [hs] at hne
        cases hne
      · intro s' heq' hne
        rw [heq] at heq'
        cases heq'
        rw [hs] at hne
        cases hne
    · rw [if_neg hs] at hok
      have hsome := parseSpecialParam_sp hok
      constructor
      · rw [hsome]
        simp only [Option.isSome_some, true_iff]
        exact ⟨s, heq, Bool.eq_false_iff.mpr hs⟩
      · intro s' heq' _
        rw [heq] at heq'
        cases heq'
        exact hsome
  · rename_i heq
    have hnone := parseFilterParam_sp hok
    constructor
    · rw [hnone]
      simp only [Option.isSome_none, Bool.false_eq_true, false_iff]
      rintro ⟨s', heq', _⟩
      rw [heq] at heq'
      cases heq'
    · intro s' heq' _
      rw [heq] at heq'
      cases heq'

/-- Witness for C9 (amended) at the default orderBy directive key. -/
theorem directive_detection_witness :
    ((QueryParameter.parse "firstName".toList "orderBy".toList personBuilder).toOption.map
        (fun q => q.specialParameter) = some (some "orderBy".toList)) := by
  have h := directive_detection personBuilder "firstName".toList "orderBy".toList
    (match QueryParameter.parse "firstName".toList "orderBy".toList personBuilder with
      | .ok q => q
      | .error _ => emptyQueryParameter) rfl
  have h2 := h.2 "orderBy".toList rfl rfl
  rw [show (QueryParameter.parse "firstName".toList "orderBy".toList
      personBuilder).toOption
    = some (match QueryParameter.parse "firstName".toList "orderBy".toList
          personBuilder with
        | .ok q => q
        | .error _ => emptyQueryParameter) from rfl]
  simp only [Option.map_some', h2]

/-- C3: renaming the count directive to cnt makes cnt=id parse as the
count directive, yet the count phase matches the raw default key and
applies nothing; with the default key the count operation is applied.
The same holds for groupBy renamed to grp.  (buildCount and
buildGroupBy look parameters up by raw key, not by logical name.) -/
theorem rename_count_groupBy_eval :
    (personBuilder.specialParameter "count".toList "cnt".toList).build
        [("cnt".toList, .str "id".toList)] [] = .ok []
    ∧ personBuilder.build [("count".toList, .str "id".toList)] []
        = .ok [.count "id".toList]
    ∧ (personBuilder.specialParameter "groupBy".toList "grp".toList).build
        [("grp".toList, .str "age".toList)] [] = .ok []
    ∧ personBuilder.build [("groupBy".toList, .str "age".toList)] []
        = .ok [.select ["age".toList], .groupBy ["age".toList]] :=
  ⟨rfl, rfl, rfl, rfl⟩

/-- C4 counterexample: a one-sided range (only rangeStart present) is
silently ignored — the build succeeds with no range operation and no
invalid-range error — and negative bounds are accepted without error. -/
theorem range_counterexample :
    personBuilder.build [("rangeStart".toList, .str "2".toList)] [] = .ok []
    ∧ personBuilder.build
        [ ("rangeStart".toList, .str "-5".toList)
        , ("rangeEnd".toList, .str "3".toList) ] []
      = .ok [.range (-5) 3] :=
  ⟨rfl, rfl⟩

/-- C4 (amended): only when both range directives are present are the
values parsed; then a parse failure (NaN) on either side is the
invalid-range error and otherwise the (possibly negative) range is
applied; when either side is missing the range phase does nothing. -/
theorem range_semantics (b : FindQueryBuilder)
    (params params2 : List QueryParameter) (ps pe : QueryParameter)
    (hs : params.find? (fun p => p.specialParameter = some "rangeStart".toList)
        = some ps)
    (he : params.find? (fun p => p.specialParameter = some "rangeEnd".toList)
        = some pe) :
    (∀ s e, jsParseInt ps.value = some s → jsParseInt pe.value = some e →
      b.buildRange params = .ok [.range s e])
    ∧ ((jsParseInt ps.value = none ∨ jsParseInt pe.value = none) →
      b.buildRange params
        = .error (.invalidRange (jsParseInt ps.value) (jsParseInt pe.value)))
    ∧ ((params2.find? (fun p => p.specialParameter = some "rangeStart".toList) = none
        ∨ params2.find? (fun p => p.specialParameter = some "rangeEnd".toList) = none) →
      b.buildRange params2 = .ok []) := by
  have hbase : b.buildRange params
      = (match jsParseInt ps.value, jsParseInt pe.value with
        | some s, some e => .ok [.range s e]
        | _, _ => .error (.invalidRange (jsParseInt ps.value) (jsParseInt pe.value))) := by
    unfold FindQueryBuilder.buildRange
    rw [hs, he]
  refine ⟨?_, ?_, ?_⟩
  · intro s e h1 h2
    rw [hbase, h1, h2]
  · intro h
    rcases h with h1 | h1
    · cases h2 : jsParseInt pe.value with
      | none => rw [hbase, h1, h2]
      | some e => rw [hbase, h1, h2]
    · cases h2 : jsParseInt ps.value with
      | none => rw [hbase, h1, h2]
      | some s => rw [hbase, h1, h2]
  · intro h
    unfold FindQueryBuilder.buildRange
    rcases h with h1 | h1
    · rw [h1]
    · cases hfind : params2.find?
          (fun p => p.specialParameter = some "rangeStart".toList) with
      | none => rfl
      | some ps2 => rw [h1]

/-- The parsed rangeStart=2 and rangeEnd=4 directives. -/
def rangeStartParam : QueryParameter :=
  { key := "rangeStart".toList
    value := "2".toList
    specialParameter := some "rangeStart".toList
    propertyRefs := []
    filter := none }

def rangeEndParam : QueryParameter :=
  { key := "rangeEnd".toList
    value := "4".toList
    specialParameter := some "rangeEnd".toList
    propertyRefs := []
    filter := none }

/-- Witness for C4 (amended) at rangeStart=2, rangeEnd=4. -/
theorem range_semantics_witness :
    (∀ s e, jsParseInt rangeStartParam.value = some s →
        jsParseInt rangeEndParam.value = some e →
      personBuilder.buildRange [rangeStartParam, rangeEndParam] = .ok [.range s e])
    ∧ ((jsParseInt rangeStartParam.value = none
        ∨ jsParseInt rangeEndParam.value = none) →
      personBuilder.buildRange [rangeStartParam, rangeEndParam]
        = .error (.invalidRange (jsParseInt rangeStartParam.value)
            (jsParseInt rangeEndParam.value)))
    ∧ (([rangeStartParam].find?
          (fun p => p.specialParameter = some "rangeStart".toList) = none
        ∨ [rangeStartParam].find?
            (fun p => p.specialParameter = some "rangeEnd".toList) = none) →
      personBuilder.buildRange [rangeStartParam] = .ok []) :=
  range_semantics personBuilder [rangeStartParam, rangeEndParam] [rangeStartParam]
    rangeStartParam rangeEndParam rfl rfl

/-- C6: evaluating the builder at the docstring's own example
lastName|movies.name:like=%Gump% shows that inside the single where
group the movies branch is added through a plain whereExists call — an
AND at the group level, with the or operator applied to the subquery's
internal where — rather than being OR-combined with the lastName
branch. -/
theorem or_branch_exists_eval :
    personBuilder.build
        [("lastName|movies.name:like".toList, .str "%Gump%".toList)] []
      = .ok [.whereGroup
          [ .call "orWhere".toList
              (.whereArgs "Person.lastName".toList "like".toList
                (some "%Gump%".toList))
          , .whereExists "movies".toList "Movie".toList "orWhere".toList
              (.whereArgs "Movie.name".toList "like".toList
                (some "%Gump%".toList)) ]] :=
  rfl

end ObjectionFind
